import Mathlib

/-!
Shallow embedding of the `dsa` repository (an unbalanced binary search tree
with unique keys, `src/bstree.hpp`, plus in-place sorting routines under
`src/sorting/`) and proofs checking the natural-language specification
against it.

Modelling conventions:
* Keys are `Int` and the comparator is `std::less`, i.e. `<` on `Int`.
* The node graph is a heap: an association list from node ids (`Nat`,
  standing for pointers) to node records.  A raw pointer is `Option Nat`
  (`none` is the null pointer).
* Fallible steps (null-pointer dereference, out-of-bounds access, assertion
  failure) and loops are modelled with `Option` results and explicit fuel;
  `none` means the C++ execution is stuck (undefined behaviour) or the loop
  has not terminated within the given fuel.  A result that is `none` for
  every fuel models a non-terminating loop.
-/

namespace Dsa

/-- The three iterator states of `detail::bstree_iterator::state`. -/
inductive IState where
  | invalid
  | valid
  | afterEnd
deriving DecidableEq, Repr

/-- `detail::bstree_iterator`: a raw node pointer `_iter` plus a state tag
`_state`. -/
structure Iter where
  iter : Option Nat
  state : IState
deriving DecidableEq, Repr

/-- The default-constructed iterator (`bstree_iterator ()`): null cursor,
state `after_end`. -/
def defaultIter : Iter := ⟨none, IState.afterEnd⟩

/-- `bstree_iterator::operator==`: equal only when both states are `valid`
or both are `after_end`, and the cursors coincide; in every other state
combination the comparison is `false`. -/
def iterEq (a b : Iter) : Bool :=
  match a.state, b.state with
  | IState.valid, IState.valid => a.iter == b.iter
  | IState.afterEnd, IState.afterEnd => a.iter == b.iter
  | _, _ => false

/-- `bstree::node`: a key plus raw `left`/`right`/`parent` pointers. -/
structure Node where
  value : Int
  left : Option Nat
  right : Option Nat
  parent : Option Nat
deriving DecidableEq, Repr

/-- The `bstree` container state: the heap of live nodes, the owned root
pointer `_tree_root`, the node count `_tree_size`, the cached iterators
`_begin` and `_end`, and an allocation counter producing fresh node ids. -/
structure Tree where
  nodes : List (Nat × Node)
  root : Option Nat
  tree_size : Nat
  beg : Iter
  fin : Iter
  nextId : Nat
deriving DecidableEq, Repr

/-- Dereference a node pointer in the heap (`n->...`); `none` models a
dereference of a pointer that is null or dangling. -/
def getNode (t : Tree) (i : Nat) : Option Node :=
  (t.nodes.find? (fun p => p.1 == i)).map Prod.snd

/-- Store through a node pointer (`n->field = ...`). -/
def setNode (t : Tree) (i : Nat) (nd : Node) : Tree :=
  { t with nodes := t.nodes.map (fun p => if p.1 == i then (i, nd) else p) }

/-- `pos->value`: dereference an iterator's cursor and read the key.  The
source reads `_iter->value` regardless of the state tag. -/
def iterValue (t : Tree) (i : Iter) : Option Int :=
  match i.iter with
  | none => none
  | some n => (getNode t n).map Node.value

/-- A default-constructed `bstree`: null root, size `0`, default cached
iterators. -/
def emptyTree : Tree :=
  ⟨[], none, 0, defaultIter, defaultIter, 0⟩

/-- `bstree::make_root`: allocate the root node, point both cached
iterators at it (`_end` tagged `after_end`), set `_tree_size` to `1`.
Returns the updated tree and the new node's id. -/
def make_root (t : Tree) (v : Int) : Tree × Nat :=
  let newId := t.nextId
  ({ nodes := t.nodes ++ [(newId, ⟨v, none, none, none⟩)]
   , root := some newId
   , tree_size := 1
   , beg := ⟨some newId, IState.valid⟩
   , fin := ⟨some newId, IState.afterEnd⟩
   , nextId := t.nextId + 1 }, newId)

/-- `bstree::insert_left (node * parent, args...)`: create a node whose
parent link is `parent`, hang it on `parent->left`, bump `_tree_size`, and
re-point the `_begin` cache when `parent == this->_begin`.  That comparison
converts the raw pointer to a `valid`-state iterator and uses
`bstree_iterator::operator==`.  The assignment `this->_begin = parent->left`
uses `operator= (Node *)`, which replaces only the cursor. -/
def insert_left (t : Tree) (parent : Nat) (pnd : Node) (v : Int) : Tree × Nat :=
  let newId := t.nextId
  let t1 : Tree :=
    { t with nodes := t.nodes ++ [(newId, ⟨v, none, none, some parent⟩)]
           , nextId := t.nextId + 1 }
  let t2 := setNode t1 parent { pnd with left := some newId }
  let t3 := { t2 with tree_size := t2.tree_size + 1 }
  let t4 :=
    if iterEq ⟨some parent, IState.valid⟩ t3.beg then
      { t3 with beg := { t3.beg with iter := some newId } }
    else t3
  (t4, newId)

/-- `bstree::insert_right (node * parent, args...)`: mirror image of
`insert_left`; the cache update is guarded by `parent == this->_end`, again
an iterator comparison between a `valid`-state conversion of `parent` and
the `after_end`-tagged `_end`. -/
def insert_right (t : Tree) (parent : Nat) (pnd : Node) (v : Int) : Tree × Nat :=
  let newId := t.nextId
  let t1 : Tree :=
    { t with nodes := t.nodes ++ [(newId, ⟨v, none, none, some parent⟩)]
           , nextId := t.nextId + 1 }
  let t2 := setNode t1 parent { pnd with right := some newId }
  let t3 := { t2 with tree_size := t2.tree_size + 1 }
  let t4 :=
    if iterEq ⟨some parent, IState.valid⟩ t3.fin then
      { t3 with fin := { t3.fin with iter := some newId } }
    else t3
  (t4, newId)

/-- The descent loop of `bstree::insert (value_type const &)` starting at
node `i`: go left on `comp (value, n->value)`, right on
`comp (n->value, value)`, attach a leaf on reaching a null child, and stop
without mutation on an equal key, returning `(iterator-to-existing, false)`. -/
def insertFrom (t : Tree) (v : Int) : Nat → Nat → Option (Tree × Iter × Bool)
  | 0, _ => none
  | fuel + 1, i =>
    match getNode t i with
    | none => none
    | some nd =>
      if v < nd.value then
        match nd.left with
        | some l => insertFrom t v fuel l
        | none =>
          let r := insert_left t i nd v
          some (r.1, ⟨some r.2, IState.valid⟩, true)
      else if nd.value < v then
        match nd.right with
        | some r => insertFrom t v fuel r
        | none =>
          let r := insert_right t i nd v
          some (r.1, ⟨some r.2, IState.valid⟩, true)
      else some (t, ⟨some i, IState.valid⟩, false)

/-- `bstree::insert (value_type const &)`: `make_root` on an empty tree,
otherwise the descent from `_tree_root`. -/
def insertV (t : Tree) (v : Int) : Option (Tree × Iter × Bool) :=
  if t.tree_size = 0 then
    let r := make_root t v
    some (r.1, ⟨some r.2, IState.valid⟩, true)
  else
    match t.root with
    | none => none
    | some r => insertFrom t v (t.nodes.length + 1) r

/-- The descent loop of `bstree::find_impl`: returns the id of the node
whose key compares equal to `v`; `none` when the search exhausts a null
child (the source then returns `_end`) or dereferences a bad pointer. -/
def findFrom (t : Tree) (v : Int) : Nat → Nat → Option Nat
  | 0, _ => none
  | fuel + 1, i =>
    match getNode t i with
    | none => none
    | some nd =>
      if v < nd.value then
        match nd.left with
        | some l => findFrom t v fuel l
        | none => none
      else if nd.value < v then
        match nd.right with
        | some r => findFrom t v fuel r
        | none => none
      else some i

/-- `find` viewed as a key-presence query from the root. -/
def findT (t : Tree) (v : Int) : Option Nat :=
  match t.root with
  | none => none
  | some r => findFrom t v (t.nodes.length + 1) r

/-- Insert a list of keys left to right, starting from a given tree,
mirroring `insert (first, last)`.  Stuck executions propagate as `none`. -/
def insertList (t : Tree) : List Int → Option Tree
  | [] => some t
  | v :: vs =>
    match insertV t v with
    | none => none
    | some r => insertList r.1 vs

/-- The tree obtained by inserting `1` then `2` into an empty tree. -/
def t12 : Tree :=
  (insertList emptyTree [1, 2]).getD emptyTree

/-- The tree obtained by inserting `2` then `1` into an empty tree. -/
def t21 : Tree :=
  (insertList emptyTree [2, 1]).getD emptyTree

example : t12 = ⟨[(0, ⟨1, none, some 1, none⟩), (1, ⟨2, none, none, some 0⟩)],
    some 0, 2, ⟨some 0, IState.valid⟩, ⟨some 0, IState.afterEnd⟩, 2⟩ := by
  decide

example : t21 = ⟨[(0, ⟨2, some 1, none, none⟩), (1, ⟨1, none, none, some 0⟩)],
    some 0, 2, ⟨some 1, IState.valid⟩, ⟨some 0, IState.afterEnd⟩, 2⟩ := by
  decide

/-- The `while (n->left) n = n->left;` descent to the leftmost descendant
used by `operator++`. -/
def descLeft (t : Tree) : Nat → Nat → Option Nat
  | 0, _ => none
  | fuel + 1, i =>
    match getNode t i with
    | none => none
    | some nd =>
      match nd.left with
      | none => some i
      | some l => descLeft t fuel l

/-- The `while (n->right) n = n->right;` descent to the rightmost
descendant used by `operator--`. -/
def descRight (t : Tree) : Nat → Nat → Option Nat
  | 0, _ => none
  | fuel + 1, i =>
    match getNode t i with
    | none => none
    | some nd =>
      match nd.right with
      | none => some i
      | some r => descRight t fuel r

/-- The ascent loop of `operator++` for a node that is its parent's right
child.  Loop variables are `it` (the climbing cursor) and `n` (the node the
iterator will land on).  Every branch of the source loop either `break`s
(reaching the root yields `(n, true)`, i.e. state `after_end`; finding a
left-child relation yields `(it->parent, false)`) or climbs. -/
def incAscend (t : Tree) : Nat → Nat → Nat → Option (Nat × Bool)
  | 0, _, _ => none
  | fuel + 1, it, n =>
    match getNode t it with
    | none => none
    | some itnd =>
      match itnd.parent with
      | none => some (n, true)
      | some p =>
        match getNode t p with
        | none => none
        | some pnd =>
          if pnd.left = some it then some (p, false)
          else incAscend t fuel p n

/-- `bstree_iterator::operator++`: a no-op unless the cursor is non-null
and the state is `valid`; then either descend into the right subtree's
leftmost node, move up when the node is its parent's left child, run the
ascent loop when it is a right child, or (at the root with no right child)
keep the cursor and tag the state `after_end`. -/
def incIter (t : Tree) (fuel : Nat) (i : Iter) : Option Iter :=
  match i.iter, i.state with
  | some n, IState.valid =>
    match getNode t n with
    | none => none
    | some nd =>
      match nd.right with
      | some r => (descLeft t fuel r).map (fun m => ⟨some m, IState.valid⟩)
      | none =>
        match nd.parent with
        | none => some ⟨some n, IState.afterEnd⟩
        | some p =>
          match getNode t p with
          | none => none
          | some pnd =>
            if pnd.left = some n then some ⟨some p, IState.valid⟩
            else
              match incAscend t fuel p n with
              | none => none
              | some (m, reachedEnd) =>
                some ⟨some m, if reachedEnd then IState.afterEnd else IState.valid⟩
  | _, _ => some i

/-- The ascent loop of `operator--` for a node that is its parent's left
child.  Unlike its `operator++` counterpart, *no branch of the source loop
breaks*: the root case sets the invalid state and loops with `it`
unchanged, the right-child case sets `n = it->parent` and loops with `it`
unchanged, and the remaining case climbs.  The loop therefore never
produces a value; only dereferencing a dangling pointer (or fuel
exhaustion, standing for non-termination) stops the model. -/
def decAscend (t : Tree) : Nat → Nat → Option Iter
  | 0, _ => none
  | fuel + 1, it =>
    match getNode t it with
    | none => none
    | some itnd =>
      match itnd.parent with
      | none => decAscend t fuel it
      | some p =>
        match getNode t p with
        | none => none
        | some pnd =>
          if pnd.right = some it then decAscend t fuel it
          else decAscend t fuel p

/-- `bstree_iterator::operator--`: on a `valid` iterator, descend into the
left subtree's rightmost node, move up when the node is its parent's right
child, run the (never-breaking) ascent loop when it is a left child, or at
the root become `(null, invalid)`; on a non-null `after_end` iterator the
state is re-tagged `valid`; otherwise a no-op. -/
def decIter (t : Tree) (fuel : Nat) (i : Iter) : Option Iter :=
  match i.iter, i.state with
  | some n, IState.valid =>
    match getNode t n with
    | none => none
    | some nd =>
      match nd.left with
      | some l => (descRight t fuel l).map (fun m => ⟨some m, IState.valid⟩)
      | none =>
        match nd.parent with
        | none => some ⟨none, IState.invalid⟩
        | some p =>
          match getNode t p with
          | none => none
          | some pnd =>
            if pnd.right = some n then some ⟨some p, IState.valid⟩
            else decAscend t fuel p
  | some n, IState.afterEnd => some ⟨some n, IState.valid⟩
  | _, _ => some i

/-- In-order iteration `for (it = begin; it != end; ++it) visit (*it)`
driven by the container's cached `_end`:  collect the visited keys until
the cursor compares equal to `_end`. -/
def traverse (t : Tree) : Nat → Iter → Option (List Int)
  | 0, _ => none
  | fuel + 1, pos =>
    if iterEq pos t.fin then some []
    else
      match iterValue t pos with
      | none => none
      | some v =>
        match incIter t fuel pos with
        | none => none
        | some pos' => (traverse t fuel pos').map (fun l => v :: l)

example : incIter t12 10 ⟨some 0, IState.valid⟩ = some ⟨some 1, IState.valid⟩ := by
  decide

example : incIter t12 10 ⟨some 1, IState.valid⟩ = some ⟨some 1, IState.afterEnd⟩ := by
  decide

example : decIter t12 10 t12.fin = some ⟨some 0, IState.valid⟩ := by
  decide

/-- `this->_node_alloc.deallocate (n, 1)`: remove the node from the heap;
deallocating storage that is no longer live is undefined (`none`). -/
def deallocNode (t : Tree) (n : Nat) : Option Tree :=
  match getNode t n with
  | none => none
  | some _ => some { t with nodes := t.nodes.filter (fun p => p.1 != n) }

/-- The grafting loop at the end of the two-children `erase` case: descend
from `it` by the comparator (only a two-way branch — keys are unique) and
attach the node `inn` at the first null child slot reached. -/
def graft (t : Tree) : Nat → Nat → Nat → Option Tree
  | 0, _, _ => none
  | fuel + 1, it, inn =>
    match getNode t it, getNode t inn with
    | some itnd, some innd =>
      if innd.value < itnd.value then
        match itnd.left with
        | some l => graft t fuel l inn
        | none =>
          let t1 := setNode t it { itnd with left := some inn }
          some (setNode t1 inn { innd with parent := some it })
      else
        match itnd.right with
        | some r => graft t fuel r inn
        | none =>
          let t1 := setNode t it { itnd with right := some inn }
          some (setNode t1 inn { innd with parent := some it })
    | _, _ => none

/-- The pointer-relinking portion of `bstree::erase (iterator)` for node
`n` (with record `nd`): the four-way state machine on the child count.

* leaf: detach from the parent (a root leaf is freed by
  `_tree_root.reset ()` itself, which runs the subtree deleter); re-point
  `_begin` to the parent when `_begin == n` — the matching `_end == n`
  comparison can only succeed for iterators in equal states;
* one child: splice the child into `n`'s slot and fix the child's parent
  pointer;
* two children: choose the promoted child by the parity of `_tree_size`;
  for a non-root `n` the source writes `*branch = n->left;
  n->left->parent = *branch;` — the second statement reads `*branch`
  *after* the first has overwritten it, so it stores the just-promoted
  child itself, not `n`'s parent; then graft the other child's subtree. -/
def eraseRelink (t : Tree) (fuel : Nat) (n : Nat) (nd : Node) : Option Tree :=
  match nd.left, nd.right with
  | none, none =>
    let t1opt :=
      if t.root = some n then
        -- _tree_root.reset (): tree_delete frees the leaf root right here
        some { t with root := none, nodes := t.nodes.filter (fun p => p.1 != n) }
      else
        match nd.parent with
        | none => none
        | some p =>
          match getNode t p with
          | none => none
          | some pnd =>
            if pnd.left = some n then some (setNode t p { pnd with left := none })
            else if pnd.right = some n then some (setNode t p { pnd with right := none })
            else some t
    t1opt.map (fun t1 =>
      if iterEq t1.beg ⟨some n, IState.valid⟩ then
        { t1 with beg := { t1.beg with iter := nd.parent } }
      else if iterEq t1.fin ⟨some n, IState.valid⟩ then
        { t1 with fin := { t1.fin with iter := nd.parent } }
      else t1)
  | none, some rc =>
    let t1opt :=
      if t.root = some n then
        some { t with root := some rc }
      else
        match nd.parent with
        | none => none
        | some p =>
          match getNode t p with
          | none => none
          | some pnd =>
            if pnd.left = some n then some (setNode t p { pnd with left := some rc })
            else if pnd.right = some n then some (setNode t p { pnd with right := some rc })
            else some t
    match t1opt with
    | none => none
    | some t1 =>
      match getNode t1 rc with
      | none => none
      | some rcnd =>
        let t2 := setNode t1 rc { rcnd with parent := nd.parent }
        some (if iterEq t2.beg ⟨some n, IState.valid⟩ then
                { t2 with beg := { t2.beg with iter := nd.parent } }
              else t2)
  | some lc, none =>
    let t1opt :=
      if t.root = some n then
        some { t with root := some lc }
      else
        match nd.parent with
        | none => none
        | some p =>
          match getNode t p with
          | none => none
          | some pnd =>
            if pnd.left = some n then some (setNode t p { pnd with left := some lc })
            else if pnd.right = some n then some (setNode t p { pnd with right := some lc })
            else some t
    match t1opt with
    | none => none
    | some t1 =>
      match getNode t1 lc with
      | none => none
      | some lcnd =>
        let t2 := setNode t1 lc { lcnd with parent := nd.parent }
        some (if iterEq t2.fin ⟨some n, IState.valid⟩ then
                { t2 with fin := { t2.fin with iter := nd.parent } }
              else t2)
  | some lc, some rc =>
    let parity := t.tree_size % 2 = 0
    let promoted := if parity then lc else rc
    let grafted := if parity then rc else lc
    let t1opt :=
      if t.root = some n then
        -- release + reset (promoted); promoted->parent = nullptr
        match getNode t promoted with
        | none => none
        | some pm =>
          some (setNode { t with root := some promoted } promoted
            { pm with parent := none })
      else
        match nd.parent with
        | none => none
        | some p =>
          match getNode t p with
          | none => none
          | some pnd =>
            -- *branch = promoted; then promoted->parent = *branch (= promoted)
            let t1 :=
              if pnd.left = some n then setNode t p { pnd with left := some promoted }
              else setNode t p { pnd with right := some promoted }
            match getNode t1 promoted with
            | none => none
            | some pm => some (setNode t1 promoted { pm with parent := some promoted })
    match t1opt with
    | none => none
    | some t1 => graft t1 fuel promoted grafted

/-- `bstree::erase (iterator)`: compute the return value by incrementing a
copy of the position, relink per the child-count state machine, then
destroy the value, decrement `_tree_size` and deallocate the node. -/
def eraseIter (t : Tree) (fuel : Nat) (pos : Iter) : Option (Tree × Iter) :=
  match pos.iter with
  | none => none
  | some n =>
    match incIter t fuel pos with
    | none => none
    | some retval =>
      match getNode t n with
      | none => none
      | some nd =>
        match eraseRelink t fuel n nd with
        | none => none
        | some t1 =>
          let t2 := { t1 with tree_size := t1.tree_size - 1 }
          (deallocNode t2 n).map (fun t3 => (t3, retval))

/-- The search loop of `bstree::erase (key_type const &)`.  The current
position is a raw pointer; the loop dereferences it (`n->value`) before
any null check, so starting from the null root of an empty tree is a
null-pointer dereference (`none`). -/
def eraseKeyFrom (t : Tree) (k : Int) (fuel0 : Nat) : Nat → Option Nat → Option (Tree × Nat)
  | 0, _ => none
  | fuel + 1, optn =>
    match optn with
    | none => none
    | some n =>
      match getNode t n with
      | none => none
      | some nd =>
        if k < nd.value then
          match nd.left with
          | some l => eraseKeyFrom t k fuel0 fuel (some l)
          | none => some (t, 0)
        else if nd.value < k then
          match nd.right with
          | some r => eraseKeyFrom t k fuel0 fuel (some r)
          | none => some (t, 0)
        else
          (eraseIter t fuel0 ⟨some n, IState.valid⟩).map (fun r => (r.1, 1))

/-- `bstree::erase (key_type const &)`: descend from `_tree_root.get ()`. -/
def eraseKey (t : Tree) (fuel : Nat) (k : Int) : Option (Tree × Nat) :=
  eraseKeyFrom t k fuel fuel t.root

/-- `n.left`/`n.right` child links point to live nodes whose `parent` link
designates `n`. -/
def childParentOk (t : Tree) (i : Nat) (c : Option Nat) : Bool :=
  match c with
  | none => true
  | some cid =>
    match getNode t cid with
    | none => false
    | some cnd => cnd.parent == some i

/-- Every `parent` link points to a live node having this node as a child. -/
def parentBackOk (t : Tree) (i : Nat) (q : Option Nat) : Bool :=
  match q with
  | none => true
  | some qid =>
    match getNode t qid with
    | none => false
    | some qnd => qnd.left == some i || qnd.right == some i

/-- Invariant 3 of the spec: `parent` links are exact inverses of
`left`/`right` links (both directions, over every live node). -/
def parentInverse (t : Tree) : Bool :=
  t.nodes.all (fun p =>
    childParentOk t p.1 p.2.left && childParentOk t p.1 p.2.right &&
      parentBackOk t p.1 p.2.parent)

/-- The backward probe-walk shared by `lower_bound_impl` and
`upper_bound_impl`: `while (comp (key, pos->value)) { if (_begin == pos)
return pos; else --pos; }`.  The boolean records whether the walk returned
from inside the loop (at `_begin`), which skips the caller's
post-processing. -/
def bwdWalk (t : Tree) (k : Int) : Nat → Iter → Option (Iter × Bool)
  | 0, _ => none
  | fuel + 1, pos =>
    match iterValue t pos with
    | none => none
    | some pv =>
      if k < pv then
        if iterEq t.beg pos then some (pos, true)
        else
          match decIter t fuel pos with
          | none => none
          | some pos' => bwdWalk t k fuel pos'
      else some (pos, false)

/-- The forward probe-walk shared by `lower_bound_impl` and
`upper_bound_impl`: `while (comp (pos->value, key)) { if (_end == pos)
return pos; else ++pos; }`, with the same in-loop-return flag. -/
def fwdWalk (t : Tree) (k : Int) : Nat → Iter → Option (Iter × Bool)
  | 0, _ => none
  | fuel + 1, pos =>
    match iterValue t pos with
    | none => none
    | some pv =>
      if pv < k then
        if iterEq t.fin pos then some (pos, true)
        else
          match incIter t fuel pos with
          | none => none
          | some pos' => fwdWalk t k fuel pos'
      else some (pos, false)

/-- `bstree::lower_bound_impl`: `_end` on an empty tree; otherwise probe
from the root and walk backward (then step forward once if the walk went
strictly below the key) or forward (returning the stop position), or
return the root when it compares equal. -/
def lowerBound (t : Tree) (fuel : Nat) (k : Int) : Option Iter :=
  if t.tree_size = 0 then some t.fin
  else
    match t.root with
    | none => none
    | some r =>
      let pos : Iter := ⟨some r, IState.valid⟩
      match iterValue t pos with
      | none => none
      | some pv =>
        if k < pv then
          match bwdWalk t k fuel pos with
          | none => none
          | some (pos', early) =>
            if early then some pos'
            else
              match iterValue t pos' with
              | none => none
              | some pv' =>
                if pv' < k then incIter t fuel pos'
                else some pos'
        else if pv < k then
          match fwdWalk t k fuel pos with
          | none => none
          | some (pos', _) => some pos'
        else some pos

/-- `bstree::upper_bound_impl`: `_end` on an empty tree; otherwise probe
from the root; after a backward walk step forward once unconditionally;
after a forward walk return the stop position if it is strictly greater
than the key, else step forward once; on an equal root step forward once. -/
def upperBound (t : Tree) (fuel : Nat) (k : Int) : Option Iter :=
  if t.tree_size = 0 then some t.fin
  else
    match t.root with
    | none => none
    | some r =>
      let pos : Iter := ⟨some r, IState.valid⟩
      match iterValue t pos with
      | none => none
      | some pv =>
        if k < pv then
          match bwdWalk t k fuel pos with
          | none => none
          | some (pos', early) =>
            if early then some pos'
            else incIter t fuel pos'
        else if pv < k then
          match fwdWalk t k fuel pos with
          | none => none
          | some (pos', early) =>
            if early then some pos'
            else
              match iterValue t pos' with
              | none => none
              | some pv' =>
                if k < pv' then some pos'
                else incIter t fuel pos'
        else incIter t fuel pos

/-- `bstree::insert_at (iterator, value_type const &)`: attach the value
as a new leaf directly beside the validated hint position.  The
`assert (!pos->left)` / `assert (!pos->right)` failures are stuck
executions.  After the low-level insert, a second `_begin`/`_end` cache
check runs against the freshly constructed `iterator {pos->left}` /
`iterator {pos->right}` (both `valid`-state). -/
def insert_at (t : Tree) (pos : Nat) (v : Int) : Option (Tree × Iter) :=
  match getNode t pos with
  | none => none
  | some pnd =>
    if v < pnd.value then
      match pnd.left with
      | some _ => none
      | none =>
        let r := insert_left t pos pnd v
        let t2 :=
          if iterEq ⟨some pos, IState.valid⟩ r.1.beg then
            { r.1 with beg := ⟨some r.2, IState.valid⟩ }
          else r.1
        some (t2, ⟨some r.2, IState.valid⟩)
    else if pnd.value < v then
      match pnd.right with
      | some _ => none
      | none =>
        let r := insert_right t pos pnd v
        let t2 :=
          if iterEq ⟨some pos, IState.valid⟩ r.1.fin then
            { r.1 with fin := ⟨some r.2, IState.valid⟩ }
          else r.1
        some (t2, ⟨some r.2, IState.valid⟩)
    else some (t, ⟨some pos, IState.valid⟩)

/-- The backward hint-validation walk of `insert (hint, value)` /
`emplace_hint`: `while (pos != _begin && comp (value, pos->value)) --pos;`. -/
def hintBwd (t : Tree) (v : Int) : Nat → Iter → Option Iter
  | 0, _ => none
  | fuel + 1, pos =>
    if iterEq pos t.beg then some pos
    else
      match iterValue t pos with
      | none => none
      | some pv =>
        if v < pv then
          match decIter t fuel pos with
          | none => none
          | some pos' => hintBwd t v fuel pos'
        else some pos

/-- The forward hint-validation walk:
`while (pos != _end && comp (pos->value, value)) ++pos;`. -/
def hintFwd (t : Tree) (v : Int) : Nat → Iter → Option Iter
  | 0, _ => none
  | fuel + 1, pos =>
    if iterEq pos t.fin then some pos
    else
      match iterValue t pos with
      | none => none
      | some pv =>
        if pv < v then
          match incIter t fuel pos with
          | none => none
          | some pos' => hintFwd t v fuel pos'
        else some pos

/-- `bstree::insert (const_iterator hint, value_type const &)`: rebuild
the hint as a `valid`-state iterator, immediately dereference it to pick
the walk direction (`comp (value, pos->value)` — before any emptiness
check), walk, then `insert_at` the stop position. -/
def insertHinted (t : Tree) (fuel : Nat) (hint : Iter) (v : Int) :
    Option (Tree × Iter) :=
  let pos0 : Iter := ⟨hint.iter, IState.valid⟩
  match iterValue t pos0 with
  | none => none
  | some pv =>
    if v < pv then
      match hintBwd t v fuel pos0 with
      | none => none
      | some pos' =>
        match pos'.iter with
        | none => none
        | some p => insert_at t p v
    else
      match hintFwd t v fuel pos0 with
      | none => none
      | some pos' =>
        match pos'.iter with
        | none => none
        | some p => insert_at t p v

/-- `bstree::insert_left (node * parent, node * n)`: hang an existing node
on `parent->left`, set its parent link, bump the size, update the `_begin`
cache when `parent == _begin`. -/
def insert_left_node (t : Tree) (parent : Nat) (pnd : Node) (inn : Nat) :
    Option Tree :=
  let t1 := setNode t parent { pnd with left := some inn }
  match getNode t1 inn with
  | none => none
  | some innd =>
    let t2 := setNode t1 inn { innd with parent := some parent }
    let t3 := { t2 with tree_size := t2.tree_size + 1 }
    some (if iterEq ⟨some parent, IState.valid⟩ t3.beg then
            { t3 with beg := { t3.beg with iter := some inn } }
          else t3)

/-- `bstree::insert_right (node * parent, node * n)`: mirror image, with
the (state-mismatched) `parent == _end` cache check. -/
def insert_right_node (t : Tree) (parent : Nat) (pnd : Node) (inn : Nat) :
    Option Tree :=
  let t1 := setNode t parent { pnd with right := some inn }
  match getNode t1 inn with
  | none => none
  | some innd =>
    let t2 := setNode t1 inn { innd with parent := some parent }
    let t3 := { t2 with tree_size := t2.tree_size + 1 }
    some (if iterEq ⟨some parent, IState.valid⟩ t3.fin then
            { t3 with fin := { t3.fin with iter := some inn } }
          else t3)

/-- `bstree::insert_at (iterator, node *)`: like the value overload but
attaching a pre-constructed node; returns `false` without attaching when
the keys compare equal. -/
def insert_at_node (t : Tree) (pos : Nat) (inn : Nat) :
    Option (Tree × Iter × Bool) :=
  match getNode t pos, getNode t inn with
  | some pnd, some innd =>
    if innd.value < pnd.value then
      match pnd.left with
      | some _ => none
      | none =>
        match insert_left_node t pos pnd inn with
        | none => none
        | some t1 =>
          let t2 :=
            if iterEq ⟨some pos, IState.valid⟩ t1.beg then
              { t1 with beg := ⟨some inn, IState.valid⟩ }
            else t1
          some (t2, ⟨some inn, IState.valid⟩, true)
    else if pnd.value < innd.value then
      match pnd.right with
      | some _ => none
      | none =>
        match insert_right_node t pos pnd inn with
        | none => none
        | some t1 =>
          let t2 :=
            if iterEq ⟨some pos, IState.valid⟩ t1.fin then
              { t1 with fin := ⟨some inn, IState.valid⟩ }
            else t1
          some (t2, ⟨some inn, IState.valid⟩, true)
    else some (t, ⟨some pos, IState.valid⟩, false)
  | _, _ => none

/-- `bstree::emplace_hint`: construct the node speculatively *first*, then
rebuild the hint as a `valid`-state iterator and dereference it
(`comp (in->value, pos->value)`) to pick the walk direction, walk, attach
via `insert_at (pos, node *)`, and destroy the speculative node when the
key was already present. -/
def emplaceHint (t : Tree) (fuel : Nat) (hint : Iter) (v : Int) :
    Option (Tree × Iter) :=
  let inn := t.nextId
  let t0 : Tree :=
    { t with nodes := t.nodes ++ [(inn, ⟨v, none, none, none⟩)]
           , nextId := t.nextId + 1 }
  let pos0 : Iter := ⟨hint.iter, IState.valid⟩
  match iterValue t0 pos0 with
  | none => none
  | some pv =>
    let walked :=
      if v < pv then hintBwd t0 v fuel pos0 else hintFwd t0 v fuel pos0
    match walked with
    | none => none
    | some pos' =>
      match pos'.iter with
      | none => none
      | some p =>
        match insert_at_node t0 p inn with
        | none => none
        | some (t1, it, ok) =>
          if ok then some (t1, it)
          else (deallocNode t1 inn).map (fun t2 => (t2, it))

/-- `bstree::clear`: zero the size, reset both cached iterators to the
default state, release the root (freeing every owned node). -/
def clearT (t : Tree) : Tree :=
  { t with tree_size := 0, beg := defaultIter, fin := defaultIter
         , root := none, nodes := [] }

/-- `bstree::bstree (bstree &&)` (both move-construction overloads treat
the source alike): steal the root (the heap travels with it), copy size
and cached iterators, then zero the source's size and reset its iterators
to default-constructed ones. -/
def moveConstruct (src : Tree) : Tree × Tree :=
  (⟨src.nodes, src.root, src.tree_size, src.beg, src.fin, src.nextId⟩,
   { src with root := none, nodes := [], tree_size := 0
            , beg := defaultIter, fin := defaultIter, nextId := 0 })

/-- The iterative pre-order walk of `bstree::move_from` building a fresh
node graph in a destination heap: copy down the left branch when the
source has one and the destination slot is still empty, else the right
branch, else ascend in both trees in lockstep; the walk ends when the
source cursor climbs above the root. -/
def copyWalk (src : Tree) : Nat → Option Nat → Option Nat →
    List (Nat × Node) → Nat → Option (List (Nat × Node) × Nat)
  | 0, _, _, _, _ => none
  | fuel + 1, cwOpt, rwOpt, dst, fresh =>
    match cwOpt with
    | none => some (dst, fresh)
    | some cw =>
      match rwOpt with
      | none => none
      | some rw =>
        match getNode src cw,
              ((dst.find? (fun p => p.1 == rw)).map Prod.snd) with
        | some cnd, some rnd =>
          match cnd.left, rnd.left with
          | some cl, none =>
            match getNode src cl with
            | none => none
            | some clnd =>
              let dst1 := dst ++ [(fresh, ⟨clnd.value, none, none, some rw⟩)]
              let dst2 := dst1.map (fun p =>
                if p.1 == rw then (rw, { rnd with left := some fresh }) else p)
              copyWalk src fuel (some cl) (some fresh) dst2 (fresh + 1)
          | _, _ =>
            match cnd.right, rnd.right with
            | some cr, none =>
              match getNode src cr with
              | none => none
              | some crnd =>
                let dst1 := dst ++ [(fresh, ⟨crnd.value, none, none, some rw⟩)]
                let dst2 := dst1.map (fun p =>
                  if p.1 == rw then (rw, { rnd with right := some fresh }) else p)
                copyWalk src fuel (some cr) (some fresh) dst2 (fresh + 1)
            | _, _ => copyWalk src fuel cnd.parent rnd.parent dst fresh
        | _, _ => none

/-- `bstree::move_from`: null in, null out; otherwise copy the root value
into a fresh node and run the synchronized walk.  Returns the destination
heap, its root, and the allocation counter. -/
def moveFrom (src : Tree) (fuel : Nat) :
    Option (List (Nat × Node) × Option Nat × Nat) :=
  match src.root with
  | none => some ([], none, 0)
  | some r =>
    match getNode src r with
    | none => none
    | some rnd =>
      (copyWalk src fuel (some r) (some 0)
          [(0, ⟨rnd.value, none, none, none⟩)] 1).map
        (fun p => (p.1, some 0, p.2))

/-- `bstree::set_iterators`: on a non-empty tree, re-point `_begin`'s
cursor at the leftmost node (`operator= (Node *)` keeps its old state tag)
and assign `_end` a fresh `after_end` iterator at the rightmost node; on
an empty tree assign both a fresh `iterator {nullptr}` (null cursor,
`valid` state). -/
def setIterators (t : Tree) (fuel : Nat) : Option Tree :=
  if t.tree_size > 0 then
    match t.root with
    | none => none
    | some r =>
      match descLeft t fuel r, descRight t fuel r with
      | some l, some rr =>
        some { t with beg := { t.beg with iter := some l }
                    , fin := ⟨some rr, IState.afterEnd⟩ }
      | _, _ => none
  else
    some { t with beg := ⟨none, IState.valid⟩, fin := ⟨none, IState.valid⟩ }

/-- `bstree::operator= (bstree &&)` with the allocator-propagation traits
as explicit booleans: propagate-on-move-assign swaps the cleared
destination's state with the source; equal non-propagating allocators do
the same; unequal non-propagating allocators rebuild with `move_from`,
`set_iterators`, then `other.clear ()`.  Returns `(destination, source)`
after the assignment. -/
def moveAssign (propagate allocEq : Bool) (dst src : Tree) (fuel : Nat) :
    Option (Tree × Tree) :=
  if propagate then
    let d := clearT dst
    some (⟨src.nodes, src.root, src.tree_size, src.beg, src.fin, src.nextId⟩,
          ⟨d.nodes, d.root, d.tree_size, d.beg, d.fin, d.nextId⟩)
  else if !allocEq then
    let d := clearT dst
    match moveFrom src fuel with
    | none => none
    | some (h, r, fresh) =>
      let d1 : Tree := { d with nodes := h, root := r
                              , tree_size := src.tree_size, nextId := fresh }
      match setIterators d1 fuel with
      | none => none
      | some d2 => some (d2, clearT src)
  else
    let d := clearT dst
    some (⟨src.nodes, src.root, src.tree_size, src.beg, src.fin, src.nextId⟩,
          ⟨d.nodes, d.root, d.tree_size, d.beg, d.fin, d.nextId⟩)

/-!  ## Sorting routines (`src/sorting/blocksort.hpp`)

Arrays are lists; `index [i]` becomes `List.get?` (out-of-bounds reads and
writes are stuck, `none`).  The C++ `scale` is the double
`rangelen / rl_pow2`; every position the algorithm computes is
`(size_t) (b * scale)` where `b * rangelen` is far below `2^53` for the
sizes considered, so the double arithmetic is exact and the cast equals
the integer division `(b * rangelen) / rl_pow2`, which is how positions
are modelled. -/

/-- The inner `for (j = i; j >= g && comp (tmp, index [j - g]); j -= g)`
shifting loop of the anonymous-namespace `shellsort`.  `s` is the offset
of `first` in the underlying storage.  Returns the final `j` and array. -/
def shellInner (cmp : α → α → Bool) (s g : Nat) (tmp : α) :
    Nat → Nat → List α → Option (Nat × List α)
  | 0, _, _ => none
  | fuel + 1, j, arr =>
    if g ≤ j then
      match arr.get? (s + j - g) with
      | none => none
      | some x =>
        if cmp tmp x then
          match (if s + j < arr.length then some (arr.set (s + j) x) else none) with
          | none => none
          | some arr2 => shellInner cmp s g tmp fuel (j - g) arr2
        else some (j, arr)
    else some (j, arr)

/-- The `for (i = g; i < length; ++i)` pass of `shellsort` for one gap. -/
def shellOuter (cmp : α → α → Bool) (s g len : Nat) :
    Nat → Nat → List α → Option (List α)
  | 0, _, _ => none
  | fuel + 1, i, arr =>
    if i < len then
      match arr.get? (s + i) with
      | none => none
      | some tmp =>
        match shellInner cmp s g tmp (i + 1) i arr with
        | none => none
        | some (j, arr2) =>
          match (if s + j < arr2.length then some (arr2.set (s + j) tmp) else none) with
          | none => none
          | some arr3 => shellOuter cmp s g len fuel (i + 1) arr3
    else some arr

/-- The gap loop of `shellsort (first, last, comp)` over
`curia_gap_sequence = { 23, 10, 4, 1 }`, on the subrange `[s, s + len)`. -/
def shellGaps (cmp : α → α → Bool) (s len : Nat) :
    List Nat → List α → Option (List α)
  | [], arr => some arr
  | g :: gs, arr =>
    match shellOuter cmp s g len (len + 1) g arr with
    | none => none
    | some arr2 => shellGaps cmp s len gs arr2

/-- The anonymous-namespace `shellsort (first, last, comp)` of
`blocksort.hpp`, acting on the subrange `[s, e)` of the array. -/
def shellsortSeg (cmp : α → α → Bool) (s e : Nat) (arr : List α) :
    Option (List α) :=
  shellGaps cmp s (e - s) [23, 10, 4, 1] arr

/-- The `rl |= rl >> k` bit-smearing chain computing the largest power of
two not exceeding `n` (`0` for `n = 0`). -/
def prevPow2 (n : Nat) : Nat :=
  let r1 := n ||| (n >>> 1)
  let r2 := r1 ||| (r1 >>> 2)
  let r3 := r2 ||| (r2 >>> 4)
  let r4 := r3 ||| (r3 >>> 8)
  let r5 := r4 ||| (r4 >>> 16)
  let r6 := r5 ||| (r5 >>> 32)
  r6 - (r6 >>> 1)

/-- `first + (size_t) (b * scale)` as an offset: see the section comment. -/
def blockIdx (n p b : Nat) : Nat := (b * n) / p

/-- The `for (b = 0; b < rl_pow2; b += 16)` block-sorting phase. -/
def blockPhase (cmp : α → α → Bool) (n p : Nat) :
    Nat → Nat → List α → Option (List α)
  | 0, _, _ => none
  | fuel + 1, b, arr =>
    if b < p then
      match shellsortSeg cmp (blockIdx n p b) (blockIdx n p (b + 16)) arr with
      | none => none
      | some arr2 => blockPhase cmp n p fuel (b + 16) arr2
    else some arr

/-- `std::rotate (start, mid, end)` on the segment `[s, e)` with pivot
`m`. -/
def rotateSeg (arr : List α) (s m e : Nat) : Option (List α) :=
  if s ≤ m ∧ m ≤ e ∧ e ≤ arr.length then
    some (arr.take s ++ ((arr.take e).drop m) ++ ((arr.take m).drop s)
      ++ arr.drop e)
  else none

/-- The merge kernel of `std::inplace_merge`: stable, taking from the
first run unless the second run's head satisfies `comp` against it. -/
def mergeRuns (cmp : α → α → Bool) : List α → List α → List α
  | [], ys => ys
  | x :: xs, [] => x :: xs
  | x :: xs, y :: ys =>
    if cmp y x then y :: mergeRuns cmp (x :: xs) ys
    else x :: mergeRuns cmp xs (y :: ys)

/-- `std::inplace_merge (start, mid, end, comp)` on `[s, e)` with middle
`m`. -/
def inplaceMergeSeg (cmp : α → α → Bool) (arr : List α) (s m e : Nat) :
    Option (List α) :=
  if s ≤ m ∧ m ≤ e ∧ e ≤ arr.length then
    some (arr.take s
      ++ mergeRuns cmp ((arr.take m).drop s) ((arr.take e).drop m)
      ++ arr.drop e)
  else none

/-- One `for (merge = 0; merge < rl_pow2; merge += len * 2)` pass: read
`*(range_end - 1)` and `*range_start`; rotate when the whole second half
precedes the first, else merge when the halves overlap, else leave the
range alone. -/
def mergePass (cmp : α → α → Bool) (n p len : Nat) :
    Nat → Nat → List α → Option (List α)
  | 0, _, _ => none
  | fuel + 1, merge, arr =>
    if merge < p then
      let s := blockIdx n p merge
      let m := blockIdx n p (merge + len)
      let e := blockIdx n p (merge + 2 * len)
      match arr.get? (e - 1), arr.get? s with
      | some lastE, some firstS =>
        if cmp lastE firstS then
          match rotateSeg arr s m e with
          | none => none
          | some arr2 => mergePass cmp n p len fuel (merge + 2 * len) arr2
        else
          match arr.get? m, arr.get? (m - 1) with
          | some b0, some aLast =>
            if cmp b0 aLast then
              match inplaceMergeSeg cmp arr s m e with
              | none => none
              | some arr2 => mergePass cmp n p len fuel (merge + 2 * len) arr2
            else mergePass cmp n p len fuel (merge + 2 * len) arr
          | _, _ => none
      | _, _ => none
    else some arr

/-- The `for (len = 16; len < rl_pow2; len *= 2)` rotate/merge phase. -/
def mergePhases (cmp : α → α → Bool) (n p : Nat) :
    Nat → Nat → List α → Option (List α)
  | 0, _, _ => none
  | fuel + 1, len, arr =>
    if len < p then
      match mergePass cmp n p len (p + 1) 0 arr with
      | none => none
      | some arr2 => mergePhases cmp n p fuel (2 * len) arr2
    else some arr

/-- `dsa::blocksort (first, last, comp)`: compute `rl_pow2`, shell-sort
the scaled 16-blocks, then run the doubling rotate/merge passes. -/
def blocksortL (cmp : α → α → Bool) (arr : List α) : Option (List α) :=
  let n := arr.length
  let p := prevPow2 n
  match blockPhase cmp n p (p + 17) 0 arr with
  | none => none
  | some arr2 => mergePhases cmp n p (p + 1) 16 arr2

/-- Reference stable insertion (specification side): insert `x` (the
earlier-positioned element) before the first already-placed element that
does not strictly precede it, so equal-comparing elements keep their
original relative order. -/
def stableInsert (cmp : α → α → Bool) (x : α) : List α → List α
  | [] => [x]
  | y :: ys => if cmp y x then y :: stableInsert cmp x ys else x :: y :: ys

/-- Reference stable total-order sort (specification side), against which
`blocksort` is compared. -/
def refStableSort (cmp : α → α → Bool) : List α → List α
  | [] => []
  | x :: xs => stableInsert cmp x (refStableSort cmp xs)

/-!  ## Concrete executions -/

/-- Inserting `4, 2, 1, 3`: node `1` (key `2`) is a non-root node with two
children. -/
def t4 : Tree := (insertList emptyTree [4, 2, 1, 3]).getD emptyTree

/-- The tree after `erase (2)` on `t4`. -/
def t4e : Tree := ((eraseKey t4 100 2).getD (emptyTree, 0)).1

/-- The spec's concrete scenario: insert `5, 3, 8, 1, 4, 7, 9`. -/
def tS0 : Tree := (insertList emptyTree [5, 3, 8, 1, 4, 7, 9]).getD emptyTree

/-- The scenario tree after `erase (5)`: the value set `{1,3,4,7,8,9}`. -/
def tS : Tree := ((eraseKey tS0 100 5).getD (emptyTree, 0)).1

/-- Inserting `1, 3, 2`: the node holding `2` is a left child whose
in-order predecessor (`1`) sits above a right-child relation. -/
def t132 : Tree := (insertList emptyTree [1, 3, 2]).getD emptyTree

/-!  ## Helper lemmas -/

/-- The ascent loop of `operator--` never produces a value: every branch
either dereferences a dead pointer or re-enters the loop. -/
theorem decAscend_none (t : Tree) : ∀ (fuel it : Nat), decAscend t fuel it = none := by
  intro fuel
  induction fuel with
  | zero => intro it; rfl
  | succ m ih =>
    intro it
    simp only [decAscend]
    split
    · rfl
    · split
      · exact ih it
      · split
        · rfl
        · split
          · exact ih it
          · exact ih _

/-!  ## The claims -/

/-- C2: the claim says iterator decrement terminates, yielding the
in-order predecessor (or, at the minimum, the invalid null-cursor state).
The code's upward-search loop breaks in none of its branches, so whenever
the decremented node has no left child and is its parent's left child —
in particular at the minimum of the tree built by inserting `2` then `1`,
and at the node `2` of the tree built by inserting `1, 3, 2`, whose
predecessor lies above a right-child relation — `operator--` never
terminates: the model returns `none` for every fuel. -/
theorem c2_decrement_never_terminates :
    (∀ fuel, decIter t21 fuel t21.beg = none) ∧
    (∀ fuel, decIter t132 fuel ⟨some 2, IState.valid⟩ = none) := by
  constructor
  · intro fuel
    show decAscend t21 fuel 0 = none
    exact decAscend_none t21 fuel 0
  · intro fuel
    show decAscend t132 fuel 1 = none
    exact decAscend_none t132 fuel 1

/-- C3: the claim says the cached end iterator tracks the structurally
rightmost node, being updated when a new maximum is inserted.  In the code
the update guard `parent == this->_end` compares a `valid`-state
conversion of the parent against the `after_end`-tagged `_end`, which is
always false, so after inserting `1` then `2` the cache still holds node
`0` (key `1`) although the rightmost node is node `1` (key `2`):
decrementing `end ()` yields the key `1`, not the maximum, and
incrementing the maximum's iterator does not compare equal to `end ()`. -/
theorem c3_end_cache_never_updated :
    t12.fin = ⟨some 0, IState.afterEnd⟩ ∧
    descRight t12 10 0 = some 1 ∧
    iterValue t12 ⟨some 1, IState.valid⟩ = some 2 ∧
    decIter t12 10 t12.fin = some ⟨some 0, IState.valid⟩ ∧
    iterValue t12 ⟨some 0, IState.valid⟩ = some 1 ∧
    incIter t12 10 ⟨some 1, IState.valid⟩ = some ⟨some 1, IState.afterEnd⟩ ∧
    iterEq ⟨some 1, IState.afterEnd⟩ t12.fin = false := by
  decide

/-- C4: the claim says parent links stay exact inverses of child links, in
particular after erasing a two-child non-root node.  Erasing key `2` from
the tree built by inserting `4, 2, 1, 3` promotes node `2` (key `1`) into
the erased slot via `*branch = n->left; n->left->parent = *branch;`, whose
second statement reads the freshly overwritten `*branch`: node `0`
(key `4`) ends with left child `2` while node `2`'s parent link designates
node `2` itself. -/
theorem c4_parent_link_not_inverse :
    parentInverse t4 = true ∧
    eraseKey t4 100 2 = some (t4e, 1) ∧
    (getNode t4e 0).map Node.left = some (some 2) ∧
    (getNode t4e 2).map Node.parent = some (some 2) ∧
    parentInverse t4e = false := by
  decide

/-- C7: the claim says `erase (key)` is defined on every tree including
the empty one, returning `0` on a miss.  The search loop dereferences the
root pointer (`n->value`) with no emptiness guard, so on the empty tree it
dereferences null for every fuel; on a non-empty tree a miss does return
`0` with the tree unchanged and a hit returns `1`. -/
theorem c7_erase_key_on_empty_tree_derefs_null :
    (∀ fuel, eraseKey emptyTree fuel 0 = none) ∧
    eraseKey t12 100 5 = some (t12, 0) ∧
    (eraseKey t12 100 2).map Prod.snd = some 1 := by
  refine ⟨?_, by decide, by decide⟩
  intro fuel
  cases fuel with
  | zero => rfl
  | succ m => rfl

/-- C9: the hinted insertions rebuild the hint as a `valid`-state iterator
and immediately dereference it (`emplace_hint` after first constructing
the speculative node), before any emptiness check; on the empty tree every
obtainable hint carries a null cursor, so both operations dereference
null, whereas `insert (value)` checks `empty ()` and creates the root. -/
theorem c9_hinted_insert_null_deref_on_empty :
    (∀ (hint : Iter) (fuel : Nat), hint.iter = none →
      insertHinted emptyTree fuel hint 5 = none ∧
      emplaceHint emptyTree fuel hint 5 = none) ∧
    emptyTree.beg.iter = none ∧
    emptyTree.fin.iter = none ∧
    (insertV emptyTree 5).map (fun r => (r.1.tree_size, r.2.2)) =
      some (1, true) := by
  refine ⟨?_, rfl, rfl, by decide⟩
  intro hint fuel h
  refine ⟨?_, ?_⟩
  · show insertHinted emptyTree fuel ⟨hint.iter, hint.state⟩ 5 = none
    rw [h]
    rfl
  · show emplaceHint emptyTree fuel ⟨hint.iter, hint.state⟩ 5 = none
    rw [h]
    rfl

/-- Witness for C9: the hypotheses hold at the empty tree's own `end ()`
iterator. -/
theorem c9_hinted_insert_null_deref_on_empty_witness :
    insertHinted emptyTree 100 emptyTree.fin 5 = none ∧
    emplaceHint emptyTree 100 emptyTree.fin 5 = none :=
  c9_hinted_insert_null_deref_on_empty.1 emptyTree.fin 100 rfl

/-- On `t12` the in-order loop is stuck at the after-end iterator over
node `1`: it never compares equal to the stale cached end (node `0`) and
`operator++` no longer moves it. -/
theorem traverse_t12_stuck_after_end :
    ∀ n, traverse t12 n ⟨some 1, IState.afterEnd⟩ = none := by
  intro n
  induction n with
  | zero => rfl
  | succ m ih =>
    show (traverse t12 m ⟨some 1, IState.afterEnd⟩).map
        (fun l => (2 : Int) :: l) = none
    rw [ih]
    rfl

/-- From the maximum of `t12` the in-order loop visits `2` and then gets
stuck. -/
theorem traverse_t12_from_max :
    ∀ n, traverse t12 n ⟨some 1, IState.valid⟩ = none := by
  intro n
  match n with
  | 0 => rfl
  | 1 => rfl
  | k + 2 =>
    show (traverse t12 (k + 1) ⟨some 1, IState.afterEnd⟩).map
        (fun l => (2 : Int) :: l) = none
    rw [traverse_t12_stuck_after_end (k + 1)]
    rfl

/-- C1: the claim says in-order traversal from `begin ()` to `end ()`
visits strictly increasing keys on every tree reachable by inserts and
erasures.  Already after inserting `1` then `2`, the cached end iterator
was never updated (its guard compares iterators in different states), so
the traversal visits `1`, `2`, reaches the after-end iterator over node
`1`'s right child — which never compares equal to the cached end over node
`0` — and loops forever: the traversal yields no result for any fuel. -/
theorem c1_inorder_traversal_never_reaches_end :
    ∀ n, traverse t12 n t12.beg = none := by
  intro n
  match n with
  | 0 => rfl
  | 1 => rfl
  | k + 2 =>
    show (traverse t12 (k + 1) ⟨some 1, IState.valid⟩).map
        (fun l => (1 : Int) :: l) = none
    rw [traverse_t12_from_max (k + 1)]
    rfl

/-- The forward probe-walk of `lower_bound` on `t12` with key `3` is stuck
at the after-end iterator over node `1`: it never compares equal to the
stale cached end and `operator++` no longer moves it. -/
theorem fwdWalk_t12_stuck_after_end :
    ∀ n, fwdWalk t12 3 n ⟨some 1, IState.afterEnd⟩ = none := by
  intro n
  induction n with
  | zero => rfl
  | succ m ih => exact ih

/-- The forward probe-walk of `lower_bound` on `t12` with key `3` from the
maximum node steps to the stuck after-end iterator. -/
theorem fwdWalk_t12_from_max :
    ∀ n, fwdWalk t12 3 n ⟨some 1, IState.valid⟩ = none := by
  intro n
  match n with
  | 0 => rfl
  | 1 => rfl
  | k + 2 => exact fwdWalk_t12_stuck_after_end (k + 1)

/-- The forward probe-walk of `lower_bound` on `t12` with key `3` from the
root never terminates. -/
theorem fwdWalk_t12_from_root :
    ∀ n, fwdWalk t12 3 n ⟨some 0, IState.valid⟩ = none := by
  intro n
  match n with
  | 0 => rfl
  | 1 => rfl
  | k + 2 => exact fwdWalk_t12_from_max (k + 1)

/-- C6: the claim says `lower_bound` returns the smallest element not
below the key (or `end ()`), and `upper_bound` the smallest strictly
greater one, with both returning `7` on the scenario set `{1,3,4,7,8,9}`
for keys `6` and `4`.  The concrete scenario results do hold; but on the
tree built by inserting `1` then `2`, `lower_bound (3)` — whose correct
answer is `end ()` — walks forward guarded by `_end == pos`, which never
holds against the stale cached end, so the walk never terminates. -/
theorem c6_bound_queries :
    (∀ fuel, lowerBound t12 fuel 3 = none) ∧
    lowerBound tS 100 6 = some ⟨some 5, IState.valid⟩ ∧
    iterValue tS ⟨some 5, IState.valid⟩ = some 7 ∧
    upperBound tS 100 4 = some ⟨some 5, IState.valid⟩ ∧
    tS.tree_size = 6 ∧
    findT tS 5 = none := by
  refine ⟨?_, by decide, by decide, by decide, by decide, by decide⟩
  intro fuel
  show (match fwdWalk t12 3 fuel ⟨some 0, IState.valid⟩ with
        | none => none
        | some (pos', _) => some pos') = none
  rw [fwdWalk_t12_from_root fuel]

/-- The insertion descent agrees with the search descent on present keys:
wherever `find`'s loop locates an equal key, `insert`'s loop performs no
mutation and reports `(iterator-to-that-node, false)`. -/
theorem findFrom_insertFrom (t : Tree) (v : Int) :
    ∀ (fuel i m : Nat), findFrom t v fuel i = some m →
      insertFrom t v fuel i = some (t, ⟨some m, IState.valid⟩, false) := by
  intro fuel
  induction fuel with
  | zero => intro i m h; exact absurd h (by simp [findFrom])
  | succ n ih =>
    intro i m h
    cases hg : getNode t i with
    | none =>
      simp only [findFrom, hg] at h
      exact absurd h (by simp)
    | some nd =>
      simp only [findFrom, hg] at h
      simp only [insertFrom, hg]
      by_cases h1 : v < nd.value
      · rw [if_pos h1] at h ⊢
        cases hl : nd.left with
        | none => rw [hl] at h; simp at h
        | some l => rw [hl] at h; exact ih l m h
      · rw [if_neg h1] at h ⊢
        by_cases h2 : nd.value < v
        · rw [if_pos h2] at h ⊢
          cases hr2 : nd.right with
          | none => rw [hr2] at h; simp at h
          | some rr => rw [hr2] at h; exact ih rr m h
        · rw [if_neg h2] at h ⊢
          cases h
          rfl

/-- C5: inserting a key already present leaves the tree — hence `size ()`
and the element sequence — completely unchanged, performs no failing step,
and returns the pair of an iterator to the existing node and `false`. -/
theorem c5_insert_duplicate_unchanged (t : Tree) (v : Int) (m : Nat)
    (hne : ¬ t.tree_size = 0) (hfind : findT t v = some m) :
    insertV t v = some (t, ⟨some m, IState.valid⟩, false) := by
  unfold insertV
  rw [if_neg hne]
  unfold findT at hfind
  cases hr : t.root with
  | none => rw [hr] at hfind; exact absurd hfind (by simp)
  | some r =>
    rw [hr] at hfind
    exact findFrom_insertFrom t v (t.nodes.length + 1) r m hfind

/-- Witness for C5: re-inserting the key `2` into the tree built by
inserting `1` then `2`. -/
theorem c5_insert_duplicate_unchanged_witness :
    insertV t12 2 = some (t12, ⟨some 1, IState.valid⟩, false) :=
  c5_insert_duplicate_unchanged t12 2 1 (by decide) (by decide)

/-- The key-only comparator over tagged values, for observing stability. -/
def cmpKey : (Int × Nat) → (Int × Nat) → Bool := fun a b => a.1 < b.1

/-- A 16-element input (a full shell-sorted block, `rl_pow2 = 16`) whose
two equal keys `5` carry tags `1` and `4` in that order. -/
def arr16 : List (Int × Nat) :=
  [(9, 0), (5, 1), (1, 2), (2, 3), (5, 4), (3, 5), (4, 6), (6, 7),
   (7, 8), (8, 9), (20, 10), (21, 11), (22, 12), (23, 13), (24, 14), (25, 15)]

/-- C8: the claim says `blocksort` sorts ranges of size `0`, `1`, `2`, a
power of two and a non-power-of-two for every strict-weak-order
comparator, stably.  The first block pass always shell-sorts
`[first, first + 16·scale)`, so on ranges of size `1` and `2` it reads
past the end of the range (stuck for the model); and on a 16-element range
the gap-`4` shell pass reorders the two equal-comparing keys `5`, so the
produced key sequence matches the reference stable sort while the tag
sequence does not: stability is violated. -/
theorem c8_blocksort_unsorted_and_unstable :
    blocksortL cmpKey [((5 : Int), (0 : Nat))] = none ∧
    blocksortL cmpKey [((5 : Int), 0), ((3 : Int), 1)] = none ∧
    blocksortL cmpKey ([] : List (Int × Nat)) = some [] ∧
    blocksortL cmpKey arr16 =
      some [(1, 2), (2, 3), (3, 5), (4, 6), (5, 4), (5, 1), (6, 7), (7, 8),
            (8, 9), (9, 0), (20, 10), (21, 11), (22, 12), (23, 13), (24, 14),
            (25, 15)] ∧
    refStableSort cmpKey arr16 =
      [(1, 2), (2, 3), (3, 5), (4, 6), (5, 1), (5, 4), (6, 7), (7, 8),
       (8, 9), (9, 0), (20, 10), (21, 11), (22, 12), (23, 13), (24, 14),
       (25, 15)] ∧
    (blocksortL cmpKey arr16).map (List.map Prod.fst) =
      some ((refStableSort cmpKey arr16).map Prod.fst) := by
  decide

/-- C10: after move construction, and after every completed path of move
assignment (each combination of the propagate-on-move-assign trait and
allocator equality), the moved-from source has size `0`, is `empty ()`,
and its `begin ()` compares equal to its `end ()`. -/
theorem c10_moved_from_source_is_empty :
    (∀ src : Tree,
      (moveConstruct src).2.tree_size = 0 ∧
      ((moveConstruct src).2.tree_size == 0) = true ∧
      iterEq (moveConstruct src).2.beg (moveConstruct src).2.fin = true) ∧
    (∀ (propagate allocEq : Bool) (dst src : Tree) (fuel : Nat)
        (r : Tree × Tree),
      moveAssign propagate allocEq dst src fuel = some r →
      r.2.tree_size = 0 ∧ ((r.2.tree_size == 0) = true) ∧
      iterEq r.2.beg r.2.fin = true) := by
  constructor
  · intro src
    exact ⟨rfl, rfl, rfl⟩
  · intro propagate allocEq dst src fuel r h
    cases propagate with
    | true =>
      simp only [moveAssign, if_true] at h
      cases h
      exact ⟨rfl, rfl, rfl⟩
    | false =>
      cases allocEq with
      | true =>
        simp only [moveAssign, Bool.not_true, Bool.false_eq_true, if_false] at h
        cases h
        exact ⟨rfl, rfl, rfl⟩
      | false =>
        simp only [moveAssign, Bool.not_false, Bool.false_eq_true, if_false,
          if_true] at h
        cases hm : moveFrom src fuel with
        | none => rw [hm] at h; exact absurd h (by simp)
        | some trip =>
          rw [hm] at h
          obtain ⟨hh, rr, fr⟩ := trip
          simp only at h
          cases hs : setIterators
              { clearT dst with nodes := hh, root := rr
                              , tree_size := src.tree_size, nextId := fr }
              fuel with
          | none => rw [hs] at h; exact absurd h (by simp)
          | some d2 =>
            rw [hs] at h
            simp only at h
            cases h
            exact ⟨rfl, rfl, rfl⟩

/-- Witness for C10's move-assignment part: a concrete completed
propagate-path assignment of `t12` into an empty destination. -/
theorem c10_moved_from_source_is_empty_witness :
    moveAssign true true emptyTree t12 100 =
      some (⟨t12.nodes, t12.root, t12.tree_size, t12.beg, t12.fin, t12.nextId⟩,
            ⟨[], none, 0, defaultIter, defaultIter, 0⟩) ∧
    ((⟨[], none, 0, defaultIter, defaultIter, 0⟩ : Tree).tree_size = 0 ∧
     (((⟨[], none, 0, defaultIter, defaultIter, 0⟩ : Tree).tree_size == 0) = true) ∧
     iterEq (⟨[], none, 0, defaultIter, defaultIter, 0⟩ : Tree).beg
       (⟨[], none, 0, defaultIter, defaultIter, 0⟩ : Tree).fin = true) := by
  constructor
  · rfl
  · exact c10_moved_from_source_is_empty.2 true true emptyTree t12 100
      (⟨t12.nodes, t12.root, t12.tree_size, t12.beg, t12.fin, t12.nextId⟩,
       ⟨[], none, 0, defaultIter, defaultIter, 0⟩) rfl

end Dsa
